import Mathlib

set_option maxRecDepth 8000

/-!
Verification of `scripts/gen_builtins.py`: the build-time generator that
produces `pkl/Builtins.pkl` (the aggregator module) and
`pkl/builtins_meta.json` (the metadata sidecar) from the fragment files
`pkl/builtins/*.pkl`.

The script is embedded shallowly: pure string manipulation is translated
directly; the external subprocesses (the `pkl` formatter and the `pkl`
reflection evaluator) are modelled by their observable outcomes, which are
inputs to the embedded functions; `json.loads` is modelled by the parse
result (an optional `Json` value); the filesystem operations of the atomic
write are modelled by an explicit filesystem state.
-/

/-- JSON values as produced by parsing the reflection output with
`json.loads`.  Objects keep their fields in insertion order, matching
Python dict semantics. -/
inductive Json where
  | null : Json
  | bool (b : Bool) : Json
  | num (n : Int) : Json
  | str (s : String) : Json
  | arr (xs : List Json) : Json
  | obj (kvs : List (String × Json)) : Json

/-- Characters after the last slash, as in `os.path.basename` (POSIX). -/
def basenameChars (p : List Char) : List Char :=
  (p.reverse.takeWhile (fun c => c ≠ '/')).reverse

/-- The root of `os.path.splitext p`: the last extension is stripped, where
the extension starts at the last dot of the final path component unless all
characters before that dot in the final component are themselves dots
(so a leading-dot name such as `.bashrc` keeps its dot). -/
def splitextStem (p : List Char) : List Char :=
  match (p.reverse.takeWhile (fun c => c ≠ '/')).dropWhile (fun c => c ≠ '.') with
  | [] => p
  | _ :: rest =>
    if rest.all (fun c => c = '.') then p
    else (rest ++ p.reverse.dropWhile (fun c => c ≠ '/')).reverse

/-- One character of `str.replace("-", "_")`. -/
def hyphenChar (c : Char) : Char := if c = '-' then '_' else c

/-- `s.replace("-", "_")`: every hyphen becomes an underscore. -/
def replaceHyphens (s : String) : String := String.mk (s.toList.map hyphenChar)

/-- `os.path.splitext(os.path.basename(filepath))[0]`, the `filename`
variable of the script. -/
def fileStem (filepath : String) : String :=
  String.mk (splitextStem (basenameChars filepath.toList))

/-- The identifier-derivation function: strip the extension from a filename,
then replace every hyphen with an underscore
(`os.path.splitext(filename)[0].replace("-", "_")`). -/
def deriveIdentifier (filename : String) : String :=
  replaceHyphens (String.mk (splitextStem filename.toList))

/-- The fixed header written at the top of `pkl/Builtins.pkl`
(the `HEADER` constant of the script). -/
def HEADER : String :=
  "// THIS FILE IS GENERATED: Run \x27mise run pkl:gen\x27 to generate.\n" ++
  "\n" ++
  "import* \"builtins/*.pkl\" as Builtins\n" ++
  "\n" ++
  "/// Indicator for detecting if a builtin is relevant to a project\n" ++
  "class ProjectIndicator \x7b\n" ++
  "  /// Exact file path to check for existence\n" ++
  "  file: String?\n" ++
  "\n" ++
  "  /// Glob pattern to match any file\n" ++
  "  glob: String?\n" ++
  "\n" ++
  "  /// Content pattern to grep for (requires file to be set)\n" ++
  "  contains: String?\n" ++
  "\x7d\n" ++
  "\n" ++
  "/// Internal class for annotating hk builtins for documentation generation\n" ++
  "class meta extends Annotation \x7b\n" ++
  "  /// Category for documentation grouping (e.g., \"JavaScript/TypeScript\", \"Python\", \"Rust\")\n" ++
  "  category: String?\n" ++
  "\n" ++
  "  /// Human-readable description of the step for documentation\n" ++
  "  description: String?\n" ++
  "\n" ++
  "  /// Project indicators for auto-detection\n" ++
  "  project_indicators: Listing<ProjectIndicator>?\n" ++
  "\x7d\n" ++
  "\n"

/-- Whether a character sequence ends with the given suffix. -/
def listEndsWith (l suf : List Char) : Bool :=
  decide (l.reverse.take suf.length = suf.reverse)

/-- Whether a name is hidden in the glob sense: it starts with a dot. -/
def startsWithDot : List Char → Bool
  | '.' :: _ => true
  | _ => false

/-- Whether a directory entry is matched by the glob pattern `*.pkl`:
it ends with `.pkl` and, per glob hidden-file convention, does not start
with a dot. -/
def matchPkl (name : String) : Bool :=
  listEndsWith name.toList ".pkl".toList && !(startsWithDot name.toList)

/-- Python string comparison on the underlying character sequences:
lexicographic by code point, a strict prefix comparing as smaller. -/
def listLeB : List Char → List Char → Bool
  | [], _ => true
  | _ :: _, [] => false
  | a :: as, b :: bs => if a < b then true else if b < a then false else listLeB as bs

/-- Python `a <= b` on strings. -/
def strLeB (a b : String) : Bool := listLeB a.toList b.toList

/-- The order `sorted` sorts by. -/
def strLe (a b : String) : Prop := strLeB a b = true

instance : DecidableRel strLe := fun a b => inferInstanceAs (Decidable (strLeB a b = true))

/-- `sorted` on a list of strings: the sorted permutation under the
code-point lexicographic order. -/
def sortStrings (l : List String) : List String :=
  l.insertionSort strLe

/-- `sorted(glob.glob("pkl/builtins/*.pkl"))` as a function of the
directory listing of `pkl/builtins` (basenames, in arbitrary order). -/
def fragmentPaths (listing : List String) : List String :=
  sortStrings ((listing.filter matchPkl).map (fun n => "pkl/builtins/" ++ n))

/-- The binding line written for one fragment, newline included:
`f'{identifier} = Builtins["builtins/{filename}.pkl"].{identifier}\n'`. -/
def aggregatorLine (filepath : String) : String :=
  replaceHyphens (fileStem filepath) ++ " = Builtins[\"builtins/" ++
    fileStem filepath ++ ".pkl\"]." ++ replaceHyphens (fileStem filepath) ++ "\n"

/-- The full content written to `pkl/Builtins.pkl` before the formatter
runs: the header followed by one binding line per fragment in sorted
order. -/
def aggregatorFileContent (listing : List String) : String :=
  HEADER ++ String.join ((fragmentPaths listing).map aggregatorLine)

/-- The binding line as the spec words it: `<identifier> =
Builtins["builtins/<stem>.pkl"].<identifier>`, where `<stem>` is the
basename with its extension stripped and `<identifier>` is the stem with
every hyphen replaced by an underscore. -/
def specAggregatorLine (filepath : String) : String :=
  replaceHyphens (fileStem filepath) ++ " = Builtins[\"builtins/" ++
    fileStem filepath ++ ".pkl\"]." ++ replaceHyphens (fileStem filepath)

/-- Python membership test on a string: `x == e` is true exactly for an
equal string and false (without error) for any other value. -/
def jsonIsStrEq (key : String) : Json → Bool
  | Json.str s => s = key
  | _ => false

/-- Python `key in x`.  For a dict it tests key membership, for a list it
tests element equality, for a string it tests substring containment; for
the remaining values it raises `TypeError`. -/
def pyIn (key : String) : Json → Except Unit Bool
  | Json.obj kvs => Except.ok (kvs.find? (fun kv => kv.1 = key)).isSome
  | Json.arr xs => Except.ok (xs.any (jsonIsStrEq key))
  | Json.str s => Except.ok (decide (key.toList <:+: s.toList))
  | _ => Except.error ()

/-- Python `x[key]` with a string key: defined for dicts only; a missing
key raises `KeyError` and any non-dict value raises `TypeError`. -/
def pyIndex (j : Json) (key : String) : Except Unit Json :=
  match j with
  | Json.obj kvs =>
    match kvs.find? (fun kv => kv.1 = key) with
    | some kv => Except.ok kv.2
    | none => Except.error ()
  | _ => Except.error ()

/-- Python `x.get(key, default)`: only dicts have `.get`; any other value
raises `AttributeError`. -/
def pyGet (j : Json) (key : String) (dflt : Json) : Except Unit Json :=
  match j with
  | Json.obj kvs =>
    Except.ok (match kvs.find? (fun kv => kv.1 = key) with
      | some kv => kv.2
      | none => dflt)
  | _ => Except.error ()

/-- Python `x.items()`: only dicts have `.items`. -/
def pyItems (j : Json) : Except Unit (List (String × Json)) :=
  match j with
  | Json.obj kvs => Except.ok kvs
  | _ => Except.error ()

/-- Python `for ann in x`: lists iterate over elements, dicts over their
keys, strings over their one-character substrings; other values raise
`TypeError`. -/
def pyIterList : Json → Except Unit (List Json)
  | Json.arr xs => Except.ok xs
  | Json.obj kvs => Except.ok (kvs.map (fun kv => Json.str kv.1))
  | Json.str s => Except.ok (s.toList.map (fun c => Json.str (String.singleton c)))
  | _ => Except.error ()

/-- The mutable state of the annotation scan: the `category`,
`description` and `project_indicators` variables of the script. -/
structure AnnState where
  category : Json
  description : Json
  project_indicators : List Json

/-- One iteration of the annotation loop: each recognized key, when
present in the element, overwrites the current value; `project_indicators`
is overwritten only when its value is a list. -/
def annStep (st : AnnState) (ann : Json) : Except Unit AnnState := do
  let hasCat ← pyIn "category" ann
  let category ← if hasCat then pyIndex ann "category" else pure st.category
  let hasDesc ← pyIn "description" ann
  let description ← if hasDesc then pyIndex ann "description" else pure st.description
  let hasInd ← pyIn "project_indicators" ann
  let project_indicators ←
    if hasInd then do
      let indicators ← pyIndex ann "project_indicators"
      match indicators with
      | Json.arr xs => pure xs
      | _ => pure st.project_indicators
    else pure st.project_indicators
  pure ⟨category, description, project_indicators⟩

/-- One record of the metadata output:
`{"name": ..., "category": ..., "description": ..., "project_indicators": ...}`. -/
structure Entry where
  name : String
  category : Json
  description : Json
  project_indicators : List Json

/-- The body of the per-property extraction: read `annotations` (defaulting
to the empty list), scan it with `annStep` starting from the defaults, and
build the entry from the property name and the final state. -/
def extractEntry (name : String) (prop : Json) : Except Unit Entry := do
  let anns ← pyGet prop "annotations" (Json.arr [])
  let annList ← pyIterList anns
  let st ← annList.foldlM annStep ⟨Json.str "", Json.str "", []⟩
  pure ⟨name, st.category, st.description, st.project_indicators⟩

/-- `data.get("moduleClass", {}).get("properties", {}).items()`. -/
def propsItemsE (data : Json) : Except Unit (List (String × Json)) := do
  let mc ← pyGet data "moduleClass" (Json.obj [])
  let props ← pyGet mc "properties" (Json.obj [])
  pyItems props

/-- The inner `try` block of the metadata loop applied to parsed reflection
data: only the first property is examined (the loop breaks after one
entry); an empty properties mapping yields no entry; any raised error is
caught and yields no entry. -/
def processParsed (data : Json) : Option Entry :=
  match propsItemsE data with
  | Except.error _ => none
  | Except.ok [] => none
  | Except.ok ((name, prop) :: _) => (extractEntry name prop).toOption

/-- The observable outcome of the reflection subprocess for one fragment:
either `subprocess.run` raised an invocation-level exception (timeout,
missing executable, ...), or it returned an exit code together with the
result of `json.loads` on its stdout (`none` when the stdout is not valid
JSON, in which case `json.loads` raises and the fragment is skipped). -/
inductive ReflectOutcome where
  | exc : ReflectOutcome
  | ran (returncode : Int) (parsed : Option Json) : ReflectOutcome

/-- The metadata entry contributed by one fragment, as a function of its
reflection outcome: an exception, a non-zero exit, unparseable stdout, or
any error while reshaping the parsed data all contribute nothing. -/
def fragmentEntry : ReflectOutcome → Option Entry
  | ReflectOutcome.exc => none
  | ReflectOutcome.ran rc parsed =>
    if rc ≠ 0 then none
    else
      match parsed with
      | none => none
      | some data => processParsed data

/-- The accumulated `entries` list of the metadata pass: fragments in
sorted order, each contributing its entry or nothing. -/
def metadataEntries (listing : List String) (env : String → ReflectOutcome) : List Entry :=
  (fragmentPaths listing).filterMap (fun fp => fragmentEntry (env fp))

/-- The value an object element declares for a key (first match, as in a
Python dict that cannot hold duplicate keys). -/
def lookupKey (a : List (String × Json)) (key : String) : Option Json :=
  (a.find? (fun kv => kv.1 = key)).map (fun kv => kv.2)

/-- The value of the last annotation element in list order that declares
the key, following the spec words for the retained field value. -/
def lastDeclared (key : String) : List (List (String × Json)) → Option Json
  | [] => none
  | a :: rest =>
    match lastDeclared key rest with
    | some v => some v
    | none => lookupKey a key

/-- The value of the last annotation element in list order that declares
the key with a list value: non-list declarations never count. -/
def lastListValued (key : String) : List (List (String × Json)) → Option (List Json)
  | [] => none
  | a :: rest =>
    match lastListValued key rest with
    | some xs => some xs
    | none =>
      match lookupKey a key with
      | some (Json.arr xs) => some xs
      | _ => none

/-- The pure effect of one annotation-loop iteration on an element that is
an object: overwrite each recognized field that the element declares,
`project_indicators` only when its declared value is a list. -/
def pureStep (st : AnnState) (a : List (String × Json)) : AnnState :=
  ⟨(lookupKey a "category").getD st.category,
   (lookupKey a "description").getD st.description,
   match lookupKey a "project_indicators" with
   | some (Json.arr xs) => xs
   | _ => st.project_indicators⟩

/-- A natural number as exactly four lowercase hex digits. -/
def hex4 (n : Nat) : String :=
  let ds := Nat.toDigits 16 n
  String.mk (List.replicate (4 - ds.length) '0' ++ ds)

/-- One character of a JSON string literal under `json.dumps` defaults
(`ensure_ascii=True`): printable ASCII is kept, the quote and the
backslash and everything else is escaped. -/
def jsonEscapeChar (c : Char) : String :=
  if c = '"' then "\\\""
  else if c = '\\' then "\\\\"
  else if c = '\n' then "\\n"
  else if c = '\r' then "\\r"
  else if c = '\t' then "\\t"
  else if c = '\x08' then "\\b"
  else if c = '\x0c' then "\\f"
  else if c.toNat < 0x20 || c.toNat > 0x7e then
    if c.toNat < 0x10000 then "\\u" ++ hex4 c.toNat
    else
      let v := c.toNat - 0x10000
      "\\u" ++ hex4 (0xd800 + v / 0x400) ++ "\\u" ++ hex4 (0xdc00 + v % 0x400)
  else String.singleton c

/-- A JSON string literal under `json.dumps` defaults. -/
def renderPyStr (s : String) : String :=
  "\"" ++ String.join (s.toList.map jsonEscapeChar) ++ "\""

mutual

/-- `json.dumps` of a value with the default separators and no
indentation. -/
def renderJson : Json → String
  | Json.null => "null"
  | Json.bool true => "true"
  | Json.bool false => "false"
  | Json.num n => toString n
  | Json.str s => renderPyStr s
  | Json.arr xs => "[" ++ renderJsonList xs ++ "]"
  | Json.obj kvs => "\x7b" ++ renderJsonObj kvs ++ "\x7d"

/-- Comma-joined rendered list elements. -/
def renderJsonList : List Json → String
  | [] => ""
  | [x] => renderJson x
  | x :: xs => renderJson x ++ ", " ++ renderJsonList xs

/-- Comma-joined rendered object fields. -/
def renderJsonObj : List (String × Json) → String
  | [] => ""
  | [kv] => renderPyStr kv.1 ++ ": " ++ renderJson kv.2
  | kv :: kvs => renderPyStr kv.1 ++ ": " ++ renderJson kv.2 ++ ", " ++ renderJsonObj kvs

end

/-- `json.dump` of one entry dict, fields in insertion order. -/
def renderEntry (e : Entry) : String :=
  "\x7b\"name\": " ++ renderPyStr e.name ++
  ", \"category\": " ++ renderJson e.category ++
  ", \"description\": " ++ renderJson e.description ++
  ", \"project_indicators\": " ++ renderJson (Json.arr e.project_indicators) ++ "\x7d"

/-- `json.dump(entries, f, indent=None)` of the accumulated list. -/
def renderEntries (es : List Entry) : String :=
  "[" ++ String.intercalate ", " (es.map renderEntry) ++ "]"

/-- The full content written for `pkl/builtins_meta.json`: the serialized
entries followed by the single `"\n"` written afterwards. -/
def metadataFileContent (es : List Entry) : String :=
  renderEntries es ++ "\n"

/-- A filesystem as a map from path to file content. -/
def FS : Type := String → Option String

/-- Creating or overwriting one file. -/
def fsWrite (fs : FS) (p : String) (c : String) : FS :=
  fun q => if q = p then some c else fs q

/-- `os.unlink`. -/
def fsRemove (fs : FS) (p : String) : FS :=
  fun q => if q = p then none else fs q

/-- `os.replace src dst`: dst atomically takes the content of src, src
disappears. -/
def fsRename (fs : FS) (src dst : String) : FS :=
  fun q => if q = dst then fs src else if q = src then none else fs q

/-- Where the atomic-write sequence is made to fail, if anywhere: while
writing the serialized entries to the temp file, or while renaming the
temp file onto the destination. -/
inductive FailPoint where
  | noFail : FailPoint
  | atWrite : FailPoint
  | atRename : FailPoint
  deriving DecidableEq

/-- The outcome of the atomic-write sequence: every intermediate filesystem
state in order, the final state, and whether an exception propagated. -/
structure AtomicResult where
  states : List FS
  final : FS
  outcome : Except Unit Unit

/-- The fixed destination path of the metadata output. -/
def metaPath : String := "pkl/builtins_meta.json"

/-- The atomic-write block of the script: `tempfile.mkstemp` creates the
empty temp file `tmp` in the destination directory, the serialized content
is written to it, and `os.replace` renames it onto `metaPath`; on a
failure while writing (leaving arbitrary partial content `part` in the
temp file) or while renaming, the temp file is unlinked and the exception
propagates. -/
def atomicWriteRun (fs0 : FS) (tmp : String) (content : String) (fp : FailPoint) (part : String) : AtomicResult :=
  let fs1 := fsWrite fs0 tmp ""
  match fp with
  | FailPoint.atWrite =>
    let fs2 := fsWrite fs1 tmp part
    let fs3 := fsRemove fs2 tmp
    ⟨[fs0, fs1, fs2, fs3], fs3, Except.error ()⟩
  | FailPoint.atRename =>
    let fs2 := fsWrite fs1 tmp content
    let fs3 := fsRemove fs2 tmp
    ⟨[fs0, fs1, fs2, fs3], fs3, Except.error ()⟩
  | FailPoint.noFail =>
    let fs2 := fsWrite fs1 tmp content
    let fs3 := fsRename fs2 tmp metaPath
    ⟨[fs0, fs1, fs2, fs3], fs3, Except.ok ()⟩

/-- The observable result of one run of `main`. -/
structure RunResult where
  aggregatorContent : String
  metadataContent : String
  printed : String

/-- One run of `main`, as a function of the directory listing, the exit
code returned by the formatter subprocess, and the reflection outcomes.
The formatter result is bound but never inspected: `subprocess.run` is
called without `check=True` and its return value is discarded, so the
metadata pass runs unconditionally. -/
def runMain (listing : List String) (formatterExit : Int) (env : String → ReflectOutcome) : RunResult :=
  let aggregatorContent := aggregatorFileContent listing
  let _formatterResult := formatterExit
  let entries := metadataEntries listing env
  ⟨aggregatorContent, metadataFileContent entries, metaPath⟩

/-- The comparison is total. -/
theorem listLeB_total : ∀ as bs : List Char, listLeB as bs = true ∨ listLeB bs as = true := by
  intro as
  induction as with
  | nil => intro bs; left; rfl
  | cons a as ih =>
    intro bs
    cases bs with
    | nil => right; rfl
    | cons b bs =>
      rcases lt_trichotomy a b with h | h | h
      · left; simp [listLeB, h]
      · subst h
        rcases ih bs with h2 | h2
        · left; simp [listLeB, lt_irrefl, h2]
        · right; simp [listLeB, lt_irrefl, h2]
      · right; simp [listLeB, h]

/-- The comparison is transitive. -/
theorem listLeB_trans : ∀ as bs cs : List Char, listLeB as bs = true → listLeB bs cs = true →
    listLeB as cs = true := by
  intro as
  induction as with
  | nil => intros; rfl
  | cons a as ih =>
    intro bs cs h1 h2
    cases bs with
    | nil => simp [listLeB] at h1
    | cons b bs =>
      cases cs with
      | nil => simp [listLeB] at h2
      | cons c cs =>
        rcases lt_trichotomy a b with hab | hab | hab
        · rcases lt_trichotomy b c with hbc | hbc | hbc
          · simp [listLeB, lt_trans hab hbc]
          · subst hbc; simp [listLeB, hab]
          · simp [listLeB, hbc, lt_asymm hbc] at h2
        · subst hab
          rcases lt_trichotomy a c with hac | hac | hac
          · simp [listLeB, hac]
          · subst hac
            simp [listLeB, lt_irrefl] at h1 h2 ⊢
            exact ih _ _ h1 h2
          · simp [listLeB, hac, lt_asymm hac] at h2
        · simp [listLeB, hab, lt_asymm hab] at h1

/-- The comparison is antisymmetric. -/
theorem listLeB_antisymm : ∀ as bs : List Char, listLeB as bs = true → listLeB bs as = true →
    as = bs := by
  intro as
  induction as with
  | nil =>
    intro bs h1 h2
    cases bs with
    | nil => rfl
    | cons b bs => simp [listLeB] at h2
  | cons a as ih =>
    intro bs h1 h2
    cases bs with
    | nil => simp [listLeB] at h1
    | cons b bs =>
      rcases lt_trichotomy a b with hab | hab | hab
      · simp [listLeB, hab, lt_asymm hab] at h2
      · subst hab
        simp [listLeB, lt_irrefl] at h1 h2
        rw [ih bs h1 h2]
      · simp [listLeB, hab, lt_asymm hab] at h1

theorem strLe_total (a b : String) : strLe a b ∨ strLe b a := listLeB_total a.toList b.toList

theorem strLe_trans (a b c : String) (h1 : strLe a b) (h2 : strLe b c) : strLe a c :=
  listLeB_trans a.toList b.toList c.toList h1 h2

theorem strLe_antisymm (a b : String) (h1 : strLe a b) (h2 : strLe b a) : a = b := by
  have h := listLeB_antisymm a.toList b.toList h1 h2
  cases a; cases b
  simp only [String.toList] at h
  exact congrArg String.mk h

/-- The script sorts with `sorted`: the result is a permutation of the
input. -/
theorem sortStrings_perm (l : List String) : (sortStrings l).Perm l :=
  List.perm_insertionSort strLe l

/-- The script sorts with `sorted`: the result is sorted under the
code-point lexicographic order. -/
theorem sortStrings_sorted (l : List String) : List.Sorted strLe (sortStrings l) :=
  @List.sorted_insertionSort String strLe _ ⟨strLe_total⟩ ⟨strLe_trans⟩ l

/-- Two listings of the same files sort to the same sequence. -/
theorem sortStrings_eq_of_perm {l₁ l₂ : List String} (h : l₁.Perm l₂) :
    sortStrings l₁ = sortStrings l₂ :=
  @List.eq_of_perm_of_sorted _ strLe ⟨strLe_antisymm⟩ _ _
    ((sortStrings_perm l₁).trans (h.trans (sortStrings_perm l₂).symm))
    (sortStrings_sorted l₁) (sortStrings_sorted l₂)

/-- The length of a filterMap is the number of elements mapped to a
value. -/
theorem length_filterMap_isSome {α β : Type} (f : α → Option β) (l : List α) :
    (l.filterMap f).length = l.countP (fun a => (f a).isSome) := by
  induction l with
  | nil => rfl
  | cons a t ih =>
    rw [List.filterMap_cons, List.countP_cons]
    cases h : f a <;> simp [h, ih]

/-- Counting a predicate that fails at exactly one element of a
duplicate-free list. -/
theorem countP_all_but_one {α : Type} (p : α → Bool) (l : List α) (bad : α)
    (hnd : l.Nodup) (hmem : bad ∈ l) (hbad : p bad = false)
    (hrest : ∀ x ∈ l, x ≠ bad → p x = true) : l.countP p = l.length - 1 := by
  induction l with
  | nil => cases hmem
  | cons a t ih =>
    rw [List.nodup_cons] at hnd
    rw [List.countP_cons]
    by_cases hab : bad = a
    · subst hab
      rw [hbad]
      have hall : t.countP p = t.length := by
        rw [List.countP_eq_length]
        intro x hx
        exact hrest x (List.mem_cons_of_mem _ hx) (fun hxb => hnd.1 (hxb ▸ hx))
      simp [hall]
    · have hbt : bad ∈ t := by
        rcases List.mem_cons.mp hmem with h | h
        · exact absurd h hab
        · exact h
      have hpa : p a = true :=
        hrest a (List.mem_cons_self a t) (fun h => hab h.symm)
      have htl : 1 ≤ t.length := List.length_pos.mpr (List.ne_nil_of_mem hbt)
      have hct := ih hnd.2 hbt (fun x hx hxb => hrest x (List.mem_cons_of_mem _ hx) hxb)
      simp only [hpa, if_true, List.length_cons, hct]
      omega

/-- On an annotation element that is an object, one loop iteration never
raises and performs exactly the overwrite described by `pureStep`. -/
theorem annStep_obj (st : AnnState) (a : List (String × Json)) :
    annStep st (Json.obj a) = Except.ok (pureStep st a) := by
  simp only [annStep, pureStep, pyIn, pyIndex, lookupKey, bind, Except.bind, pure, Except.pure]
  cases hc : a.find? (fun kv => kv.1 = "category") <;>
    cases hd : a.find? (fun kv => kv.1 = "description") <;>
      cases hp : a.find? (fun kv => kv.1 = "project_indicators") <;>
        simp [hc, hd, hp]
  all_goals (rename_i kv; cases kv.2 <;> rfl)

/-- The whole annotation loop over object elements never raises and is the
pure fold of the overwrites. -/
theorem foldlM_annStep_objs (anns : List (List (String × Json))) (st : AnnState) :
    List.foldlM annStep st (anns.map Json.obj) = Except.ok (anns.foldl pureStep st) := by
  induction anns generalizing st with
  | nil => rfl
  | cons a anns ih =>
    simp only [List.map_cons, List.foldlM_cons, annStep_obj, List.foldl_cons]
    exact ih (pureStep st a)

/-- The pure fold of the overwrites retains, for `category` and
`description`, the last declared value, and for `project_indicators` the
last list-valued declaration. -/
theorem foldl_pureStep (anns : List (List (String × Json))) (st : AnnState) :
    anns.foldl pureStep st =
      ⟨(lastDeclared "category" anns).getD st.category,
       (lastDeclared "description" anns).getD st.description,
       (lastListValued "project_indicators" anns).getD st.project_indicators⟩ := by
  induction anns generalizing st with
  | nil => rfl
  | cons a anns ih =>
    rw [List.foldl_cons, ih (pureStep st a)]
    simp only [lastDeclared, lastListValued]
    cases h1 : lastDeclared "category" anns <;>
      cases h2 : lastDeclared "description" anns <;>
        cases h3 : lastListValued "project_indicators" anns <;>
          simp only [Option.getD, pureStep] <;>
            (cases hp : lookupKey a "project_indicators" with
              | none => simp [hp]
              | some v => cases v <;> simp [hp])

/-- The per-property extraction on a property whose annotations parse as a
list of objects. -/
theorem extractEntry_objs (name : String) (prop : Json) (anns : List (List (String × Json)))
    (h : pyGet prop "annotations" (Json.arr []) = Except.ok (Json.arr (anns.map Json.obj))) :
    extractEntry name prop = Except.ok
      ⟨name, (lastDeclared "category" anns).getD (Json.str ""),
       (lastDeclared "description" anns).getD (Json.str ""),
       (lastListValued "project_indicators" anns).getD []⟩ := by
  simp only [extractEntry, h, bind, Except.bind, pyIterList, foldlM_annStep_objs,
    foldl_pureStep, pure, Except.pure]

/-- A character sequence without a dot has no extension to strip. -/
theorem splitextStem_no_dot (l : List Char) (h : '.' ∉ l) : splitextStem l = l := by
  have hnil : (l.reverse.takeWhile (fun c => c ≠ '/')).dropWhile (fun c => c ≠ '.') = [] := by
    rw [List.dropWhile_eq_nil_iff]
    intro x hx
    have hxl : x ∈ l :=
      List.mem_reverse.mp ((List.takeWhile_sublist _).mem hx)
    simp only [ne_eq, decide_eq_true_eq]
    intro hxd
    exact h (hxd ▸ hxl)
  simp only [splitextStem, hnil]

/-- Replacing hyphens is idempotent character-wise. -/
theorem hyphenChar_idem (c : Char) : hyphenChar (hyphenChar c) = hyphenChar c := by
  by_cases h : c = '-' <;> simp [hyphenChar, h]

/-- C2 (amended): the identifier derivation (strip the extension, then
replace every hyphen with an underscore) is idempotent on every filename
whose derived identifier contains no dot; for a stem that still contains a
dot a second application strips a further extension, so the unrestricted
claim fails. -/
theorem derive_identifier_idem (fn : String) (h : '.' ∉ (deriveIdentifier fn).toList) :
    deriveIdentifier (deriveIdentifier fn) = deriveIdentifier fn := by
  show replaceHyphens (String.mk (splitextStem ((deriveIdentifier fn).toList))) = deriveIdentifier fn
  have hlist : (deriveIdentifier fn).toList = (splitextStem fn.toList).map hyphenChar := rfl
  rw [hlist] at h ⊢
  rw [splitextStem_no_dot _ h]
  show String.mk (((splitextStem fn.toList).map hyphenChar).map hyphenChar) = deriveIdentifier fn
  rw [List.map_map]
  have hcomp : hyphenChar ∘ hyphenChar = hyphenChar := funext hyphenChar_idem
  rw [hcomp]
  rfl

/-- C1: the aggregator content written before formatting is the fixed
header followed by exactly one line per fragment matched by the extension
filter, in ascending lexicographic filename order, each line of the spec
form, newline-terminated; on `pkl/builtins/node-js.pkl` the line is
`node_js = Builtins["builtins/node-js.pkl"].node_js`. -/
theorem aggregator_output_form (listing : List String) :
    aggregatorFileContent listing =
      HEADER ++ String.join ((fragmentPaths listing).map (fun fp => specAggregatorLine fp ++ "\n"))
    ∧ (fragmentPaths listing).Perm ((listing.filter matchPkl).map (fun n => "pkl/builtins/" ++ n))
    ∧ List.Sorted strLe (fragmentPaths listing)
    ∧ specAggregatorLine "pkl/builtins/node-js.pkl" =
        "node_js = Builtins[\"builtins/node-js.pkl\"].node_js" := by
  refine ⟨?_, sortStrings_perm _, sortStrings_sorted _, by decide⟩
  have hline : aggregatorLine = fun fp => specAggregatorLine fp ++ "\n" := funext (fun fp => rfl)
  show HEADER ++ String.join ((fragmentPaths listing).map aggregatorLine) = _
  rw [hline]

/-- C2, counterexample: on the filename `a.b.pkl` the derivation yields
`a.b`, and a second application yields `a`, so the derivation is not
idempotent on every filename. -/
theorem derive_identifier_not_idempotent :
    deriveIdentifier (deriveIdentifier "a.b.pkl") ≠ deriveIdentifier "a.b.pkl" := by decide

/-- C2, witness: the amended idempotence applies to `node-js.pkl`. -/
theorem derive_identifier_idem_witness :
    ('.' ∉ (deriveIdentifier "node-js.pkl").toList) ∧
      deriveIdentifier (deriveIdentifier "node-js.pkl") = deriveIdentifier "node-js.pkl" :=
  ⟨by decide, derive_identifier_idem "node-js.pkl" (by decide)⟩

/-- C3: a fragment whose reflection subprocess raises, exits non-zero,
yields unparseable stdout, or parses to data without the
`moduleClass.properties` structure contributes no metadata entry, and when
exactly one fragment among N fails this way the metadata output has
exactly N - 1 entries. -/
theorem metadata_skip_failing_fragments :
    fragmentEntry ReflectOutcome.exc = none
    ∧ (∀ (rc : Int) parsed, rc ≠ 0 → fragmentEntry (ReflectOutcome.ran rc parsed) = none)
    ∧ fragmentEntry (ReflectOutcome.ran 0 none) = none
    ∧ (∀ data, propsItemsE data = Except.error () →
        fragmentEntry (ReflectOutcome.ran 0 (some data)) = none)
    ∧ (∀ (listing : List String) (env : String → ReflectOutcome) (bad : String),
        (fragmentPaths listing).Nodup → bad ∈ fragmentPaths listing →
        fragmentEntry (env bad) = none →
        (∀ f ∈ fragmentPaths listing, f ≠ bad → (fragmentEntry (env f)).isSome = true) →
        (metadataEntries listing env).length = (fragmentPaths listing).length - 1) := by
  refine ⟨rfl, ?_, rfl, ?_, ?_⟩
  · intro rc parsed h
    simp [fragmentEntry, h]
  · intro data h
    simp [fragmentEntry, processParsed, h]
  · intro listing env bad hnd hmem hbad hrest
    show ((fragmentPaths listing).filterMap (fun fp => fragmentEntry (env fp))).length = _
    rw [length_filterMap_isSome]
    exact countP_all_but_one _ _ bad hnd hmem (by rw [hbad]; rfl) hrest

/-- C3, witness: with two fragments of which exactly one fails (non-zero
exit), the metadata output has exactly one entry. -/
theorem metadata_skip_failing_fragments_witness :
    fragmentEntry ReflectOutcome.exc = none
    ∧ (metadataEntries ["bad.pkl", "good.pkl"]
        (fun fp => if fp = "pkl/builtins/bad.pkl" then ReflectOutcome.ran 1 none
          else ReflectOutcome.ran 0 (some (Json.obj [("moduleClass", Json.obj [("properties",
            Json.obj [("lint", Json.obj [])])])])))).length =
      (fragmentPaths ["bad.pkl", "good.pkl"]).length - 1 :=
  ⟨metadata_skip_failing_fragments.1,
   metadata_skip_failing_fragments.2.2.2.2 ["bad.pkl", "good.pkl"]
     (fun fp => if fp = "pkl/builtins/bad.pkl" then ReflectOutcome.ran 1 none
       else ReflectOutcome.ran 0 (some (Json.obj [("moduleClass", Json.obj [("properties",
         Json.obj [("lint", Json.obj [])])])])))
     "pkl/builtins/bad.pkl" (by decide) (by decide) rfl (by decide)⟩

/-- C4, counterexample: with annotations declaring a list-valued
`project_indicators` and then a string-valued one, the retained value is
the earlier list, not the value of the last declaring element, so
last-declared-wins does not hold for `project_indicators`. -/
theorem first_property_extraction_cx :
    (processParsed (Json.obj [("moduleClass", Json.obj [("properties", Json.obj
        [("fmt", Json.obj [("annotations", Json.arr
          [Json.obj [("project_indicators", Json.arr [Json.str "package.json"])],
           Json.obj [("project_indicators", Json.str "notalist")]])])])])])).map
        (fun e => e.project_indicators) = some [Json.str "package.json"]
    ∧ lastDeclared "project_indicators"
        [[("project_indicators", Json.arr [Json.str "package.json"])],
         [("project_indicators", Json.str "notalist")]] = some (Json.str "notalist")
    ∧ Json.str "notalist" ≠ Json.arr [Json.str "package.json"] :=
  ⟨rfl, rfl, fun h => Json.noConfusion h⟩

/-- C4 (amended): exactly one entry is produced from the first property in
iteration order only; within its annotations, `category` and `description`
retain the value of the last declaring element and default to the empty
string, while `project_indicators` retains the last list-valued
declaration and defaults to the empty list. -/
theorem first_property_extraction :
    (∀ data name prop rest, propsItemsE data = Except.ok ((name, prop) :: rest) →
      fragmentEntry (ReflectOutcome.ran 0 (some data)) = (extractEntry name prop).toOption)
    ∧ (∀ name prop anns,
        pyGet prop "annotations" (Json.arr []) = Except.ok (Json.arr (anns.map Json.obj)) →
        extractEntry name prop = Except.ok
          ⟨name, (lastDeclared "category" anns).getD (Json.str ""),
           (lastDeclared "description" anns).getD (Json.str ""),
           (lastListValued "project_indicators" anns).getD []⟩) := by
  constructor
  · intro data name prop rest h
    simp [fragmentEntry, processParsed, h]
  · intro name prop anns h
    exact extractEntry_objs name prop anns h

/-- C4, witness: with two properties only the first (`ruff`) is used, and
with two `category` declarations the later one (`Rust`) is retained. -/
theorem first_property_extraction_witness :
    fragmentEntry (ReflectOutcome.ran 0 (some (Json.obj [("moduleClass", Json.obj [("properties",
        Json.obj [("ruff", Json.obj []), ("extra", Json.obj [])])])]))) =
      (extractEntry "ruff" (Json.obj [])).toOption
    ∧ extractEntry "ruff" (Json.obj [("annotations", Json.arr
        [Json.obj [("category", Json.str "Python")],
         Json.obj [("category", Json.str "Rust"), ("description", Json.str "fast")]])]) =
      Except.ok ⟨"ruff", Json.str "Rust", Json.str "fast", []⟩ :=
  ⟨first_property_extraction.1 _ "ruff" (Json.obj []) [("extra", Json.obj [])] rfl,
   first_property_extraction.2 "ruff" _
     [[("category", Json.str "Python")],
      [("category", Json.str "Rust"), ("description", Json.str "fast")]] rfl⟩

/-- C5, counterexample: a non-list `project_indicators` value in one
annotation element does not force the entry back to the default empty
list when an earlier element declared a list: the entry keeps the earlier
list, so the claim as stated fails. -/
theorem non_list_indicators_cx :
    (processParsed (Json.obj [("moduleClass", Json.obj [("properties", Json.obj
        [("cargo", Json.obj [("annotations", Json.arr
          [Json.obj [("project_indicators", Json.arr [Json.str "Cargo.toml"])],
           Json.obj [("project_indicators", Json.num 5)]])])])])])).map
        (fun e => e.project_indicators) = some [Json.str "Cargo.toml"]
    ∧ [Json.str "Cargo.toml"] ≠ ([] : List Json) :=
  ⟨rfl, fun h => List.noConfusion h⟩

/-- C5 (amended): a non-list `project_indicators` value is discarded
without a type error and never overwrites the retained value; when no
annotation element declares a list-valued `project_indicators`, the
entry's `project_indicators` is the default empty list. -/
theorem non_list_indicators_discarded :
    (∀ (st : AnnState) (a : List (String × Json)) (v : Json),
      lookupKey a "project_indicators" = some v → (∀ xs, v ≠ Json.arr xs) →
      annStep st (Json.obj a) = Except.ok (pureStep st a)
        ∧ (pureStep st a).project_indicators = st.project_indicators)
    ∧ (∀ name prop anns,
        pyGet prop "annotations" (Json.arr []) = Except.ok (Json.arr (anns.map Json.obj)) →
        lastListValued "project_indicators" anns = none →
        (extractEntry name prop).toOption = some ⟨name,
          (lastDeclared "category" anns).getD (Json.str ""),
          (lastDeclared "description" anns).getD (Json.str ""), []⟩) := by
  constructor
  · intro st a v hv hnot
    refine ⟨annStep_obj st a, ?_⟩
    simp only [pureStep, hv]
    cases v with
    | arr xs => exact absurd rfl (hnot xs)
    | null => rfl
    | bool b => rfl
    | num n => rfl
    | str s => rfl
    | obj kvs => rfl
  · intro name prop anns h hnone
    rw [extractEntry_objs name prop anns h, hnone]
    rfl

/-- C5, witness: a string-valued `project_indicators` leaves the state
untouched without an error, and an entry whose only declaration is
string-valued gets the default empty list. -/
theorem non_list_indicators_discarded_witness :
    (annStep ⟨Json.str "", Json.str "", [Json.str "x"]⟩
        (Json.obj [("project_indicators", Json.str "bad")]) =
      Except.ok (pureStep ⟨Json.str "", Json.str "", [Json.str "x"]⟩
        [("project_indicators", Json.str "bad")])
      ∧ (pureStep ⟨Json.str "", Json.str "", [Json.str "x"]⟩
          [("project_indicators", Json.str "bad")]).project_indicators = [Json.str "x"])
    ∧ (extractEntry "go" (Json.obj [("annotations", Json.arr
        [Json.obj [("project_indicators", Json.str "go.mod")]])])).toOption =
      some ⟨"go", Json.str "", Json.str "", []⟩ :=
  ⟨non_list_indicators_discarded.1 ⟨Json.str "", Json.str "", [Json.str "x"]⟩
     [("project_indicators", Json.str "bad")] (Json.str "bad") rfl
     (fun _ h => Json.noConfusion h),
   non_list_indicators_discarded.2 "go" _ [[("project_indicators", Json.str "go.mod")]] rfl rfl⟩

/-- C6: during the atomic write the permanent output path only ever holds
its old content or the complete serialized content, never a partial one;
on a failure while writing or renaming, the temp file is removed and the
exception propagates; on success the destination holds the full content
and the temp file is gone. -/
theorem atomic_write_never_partial (fs0 : FS) (tmp : String) (entries : List Entry)
    (fp : FailPoint) (part : String) (htmp : tmp ≠ metaPath) :
    (∀ fs ∈ (atomicWriteRun fs0 tmp (metadataFileContent entries) fp part).states,
        fs metaPath = fs0 metaPath ∨ fs metaPath = some (metadataFileContent entries))
    ∧ (fp ≠ FailPoint.noFail →
        (atomicWriteRun fs0 tmp (metadataFileContent entries) fp part).outcome = Except.error ()
          ∧ (atomicWriteRun fs0 tmp (metadataFileContent entries) fp part).final tmp = none)
    ∧ (fp = FailPoint.noFail →
        (atomicWriteRun fs0 tmp (metadataFileContent entries) fp part).outcome = Except.ok ()
          ∧ (atomicWriteRun fs0 tmp (metadataFileContent entries) fp part).final metaPath
              = some (metadataFileContent entries)
          ∧ (atomicWriteRun fs0 tmp (metadataFileContent entries) fp part).final tmp = none) := by
  have hmt : metaPath ≠ tmp := Ne.symm htmp
  cases fp with
  | atWrite =>
    refine ⟨?_, fun _ => ⟨rfl, by simp [atomicWriteRun, fsRemove]⟩, fun h => by cases h⟩
    intro fs hfs
    simp only [atomicWriteRun, List.mem_cons, List.not_mem_nil, or_false] at hfs
    rcases hfs with h | h | h | h <;> subst h <;>
      simp [fsWrite, fsRemove, hmt]
  | atRename =>
    refine ⟨?_, fun _ => ⟨rfl, by simp [atomicWriteRun, fsRemove]⟩, fun h => by cases h⟩
    intro fs hfs
    simp only [atomicWriteRun, List.mem_cons, List.not_mem_nil, or_false] at hfs
    rcases hfs with h | h | h | h <;> subst h <;>
      simp [fsWrite, fsRemove, hmt]
  | noFail =>
    refine ⟨?_, fun h => absurd rfl h, fun _ => ⟨rfl, ?_, ?_⟩⟩
    · intro fs hfs
      simp only [atomicWriteRun, List.mem_cons, List.not_mem_nil, or_false] at hfs
      rcases hfs with h | h | h | h <;> subst h <;>
        simp [fsWrite, fsRemove, fsRename, hmt]
    · simp [atomicWriteRun, fsRename, fsWrite]
    · simp [atomicWriteRun, fsRename, fsWrite, hmt, htmp]

/-- C6, witness: the theorem applied to an empty filesystem, a concrete
temp name, the empty entry list and a failure injected at the write
step. -/
theorem atomic_write_never_partial_witness :
    (∀ fs ∈ (atomicWriteRun (fun _ => none) "pkl/builtins_meta.json.k7.tmp"
          (metadataFileContent []) FailPoint.atWrite "[").states,
        fs metaPath = (fun _ => none : FS) metaPath
          ∨ fs metaPath = some (metadataFileContent []))
    ∧ (FailPoint.atWrite ≠ FailPoint.noFail →
        (atomicWriteRun (fun _ => none) "pkl/builtins_meta.json.k7.tmp"
            (metadataFileContent []) FailPoint.atWrite "[").outcome = Except.error ()
          ∧ (atomicWriteRun (fun _ => none) "pkl/builtins_meta.json.k7.tmp"
              (metadataFileContent []) FailPoint.atWrite "[").final
                "pkl/builtins_meta.json.k7.tmp" = none)
    ∧ (FailPoint.atWrite = FailPoint.noFail →
        (atomicWriteRun (fun _ => none) "pkl/builtins_meta.json.k7.tmp"
            (metadataFileContent []) FailPoint.atWrite "[").outcome = Except.ok ()
          ∧ (atomicWriteRun (fun _ => none) "pkl/builtins_meta.json.k7.tmp"
              (metadataFileContent []) FailPoint.atWrite "[").final metaPath
                = some (metadataFileContent [])
          ∧ (atomicWriteRun (fun _ => none) "pkl/builtins_meta.json.k7.tmp"
              (metadataFileContent []) FailPoint.atWrite "[").final
                "pkl/builtins_meta.json.k7.tmp" = none) :=
  atomic_write_never_partial (fun _ => none) "pkl/builtins_meta.json.k7.tmp" []
    FailPoint.atWrite "[" (by decide)

/-- C7: with zero matching fragment files the aggregator content is
exactly the header and the metadata file content is `[]` followed by a
newline. -/
theorem empty_fragment_set_outputs (listing : List String) (env : String → ReflectOutcome)
    (h : listing.filter matchPkl = []) :
    aggregatorFileContent listing = HEADER
    ∧ metadataEntries listing env = []
    ∧ metadataFileContent (metadataEntries listing env) = "[]\n" := by
  have hp : fragmentPaths listing = [] := by
    unfold fragmentPaths
    rw [h]
    rfl
  have hm : metadataEntries listing env = [] := by
    show (fragmentPaths listing).filterMap _ = []
    rw [hp]
    rfl
  refine ⟨?_, hm, ?_⟩
  · show HEADER ++ String.join ((fragmentPaths listing).map aggregatorLine) = HEADER
    rw [hp]
    exact String.append_empty HEADER
  · rw [hm]
    rfl

/-- C7, witness: a listing with no `.pkl` entry. -/
theorem empty_fragment_set_outputs_witness :
    aggregatorFileContent ["README.md"] = HEADER
    ∧ metadataEntries ["README.md"] (fun _ => ReflectOutcome.exc) = []
    ∧ metadataFileContent (metadataEntries ["README.md"] (fun _ => ReflectOutcome.exc)) =
        "[]\n" :=
  empty_fragment_set_outputs ["README.md"] (fun _ => ReflectOutcome.exc) (by decide)

/-- C8: the formatter exit code is never inspected: every observable of
the run, including the metadata pass and the final print, is the same for
any two formatter exit codes. -/
theorem formatter_exit_not_inspected (listing : List String) (env : String → ReflectOutcome)
    (exit1 exit2 : Int) :
    runMain listing exit1 env = runMain listing exit2 env
    ∧ (runMain listing exit1 env).printed = metaPath :=
  ⟨rfl, rfl⟩

/-- C9: the aggregator content written before formatting is byte-identical
for any two runs over the same fragment set, however the directory is
enumerated. -/
theorem aggregator_deterministic (l1 l2 : List String) (h : l1.Perm l2) :
    aggregatorFileContent l1 = aggregatorFileContent l2 := by
  have hfp : fragmentPaths l1 = fragmentPaths l2 :=
    sortStrings_eq_of_perm ((h.filter matchPkl).map (fun n => "pkl/builtins/" ++ n))
  show HEADER ++ String.join ((fragmentPaths l1).map aggregatorLine) =
    HEADER ++ String.join ((fragmentPaths l2).map aggregatorLine)
  rw [hfp]

/-- C9, witness: two enumeration orders of the same two fragments. -/
theorem aggregator_deterministic_witness :
    aggregatorFileContent ["b.pkl", "a.pkl"] = aggregatorFileContent ["a.pkl", "b.pkl"] :=
  aggregator_deterministic ["b.pkl", "a.pkl"] ["a.pkl", "b.pkl"] (by decide)

/-- C10: a fragment whose reflection data parses and has the
`moduleClass.properties` structure with an empty properties mapping
contributes no metadata entry, exactly like a failing fragment. -/
theorem empty_properties_no_entry (data : Json)
    (h : propsItemsE data = Except.ok []) :
    fragmentEntry (ReflectOutcome.ran 0 (some data)) = none := by
  simp [fragmentEntry, processParsed, h]

/-- C10, witness: concrete reflection data with an empty properties
mapping. -/
theorem empty_properties_no_entry_witness :
    propsItemsE (Json.obj [("moduleClass", Json.obj [("properties", Json.obj [])])]) =
      Except.ok []
    ∧ fragmentEntry (ReflectOutcome.ran 0 (some (Json.obj [("moduleClass",
        Json.obj [("properties", Json.obj [])])]))) = none :=
  ⟨rfl, empty_properties_no_entry _ rfl⟩
